import Mathlib

/-!
Verification of the BrandMorpher creative-generation utility.

This file gives a shallow embedding, in Lean 4, of the observable behaviour of
the repository's Python modules:

* `adapters/caption_llm_adapter.py` — the caption adapter (`_template_captions`,
  `_extract_text_from_response`, `GeminiCaptionAdapter.generate_captions`);
* `generate_creatives.py` — the creative compositor
  (`generate_caption`, `_autocrop_to_subject`, `generate_variations_improved`,
  `generate_variations`);
* `utils.py` — `create_zip`;
* `app.py` — the caption-merge step of the `/generate` route.

Modelling conventions:

* Python strings are Lean `String`s; string helpers (`str.splitlines`,
  `str.strip`, `"sep".join`, `sorted`, …) are re-implemented below on the
  underlying `List Char` so that they are executable and kernel-reducible.
* The remote HTTP call of the adapters is modelled by an explicit outcome
  value (`CallOutcome`): either the call raises, or it returns a decoded JSON
  payload (`PyVal`).  Randomness in the compositor is modelled by an explicit
  oracle (`caprand : Nat → Nat`) supplying the index drawn by `random.choice`.
* The compositor's pixel-level output is not inspected by any specification
  sentence under verification, so the payload of a saved creative image is an
  opaque token (`FileData.image i`); the file *names*, the caption file and
  the return value — which the claims are about — are modelled exactly.
* `PIL.Image` operations used by `_autocrop_to_subject` (`split`, `getbbox`,
  `crop`, `convert("L")`, `point`) are modelled concretely on a pixel grid.
-/

/-! ## Definitions -/

/-- Lexicographic comparison of character lists by Unicode code point,
as Python uses for `sorted` on strings/paths. -/
def lexLe : List Char → List Char → Bool
  | [], _ => true
  | _ :: _, [] => false
  | a :: as, b :: bs =>
    if a.toNat < b.toNat then true
    else if b.toNat < a.toNat then false
    else lexLe as bs

/-- `a ≤ b` on strings, Python-style (code-point lexicographic). -/
def strLe (a b : String) : Bool := lexLe a.data b.data

/-- Insert into a sorted list (helper for `sortStrings`). -/
def insertLe (x : String) : List String → List String
  | [] => [x]
  | y :: ys => if strLe x y then x :: y :: ys else y :: insertLe x ys

/-- Python `sorted` on a list of strings (insertion sort; stable, total). -/
def sortStrings : List String → List String
  | [] => []
  | x :: xs => insertLe x (sortStrings xs)

/-- Python `sep.join(xs)`. -/
def pyJoin (sep : String) : List String → String
  | [] => ""
  | [x] => x
  | x :: xs => x ++ sep ++ pyJoin sep xs

/-- Split a character list at every occurrence of a separator character,
keeping empty pieces — the semantics of Python `s.split(sep)` for a
one-character separator (`n-1` separators give `n` pieces). -/
def splitOnChars (seps : List Char) : List Char → List (List Char)
  | [] => [[]]
  | c :: cs =>
    if seps.contains c then [] :: splitOnChars seps cs
    else match splitOnChars seps cs with
      | [] => [[c]]
      | l :: ls => (c :: l) :: ls

/-- The lines of a text file: split its contents at every `'\n'`.
A file holding `"\n".join(lines)` for `n` nonempty-of-newline lines has
exactly `n` lines in this sense. -/
def fileLines (s : String) : List String :=
  (splitOnChars ['\n'] s.data).map (fun l => (⟨l⟩ : String))

/-- The ASCII whitespace characters stripped by a bare Python `str.strip()`. -/
def pyWsChars : List Char := [' ', '\t', '\n', '\r', '\x0b', '\x0c']

/-- The character set of the adapter's `l.strip(" -•\n\r\t")` call
(whitespace plus bullet/dash characters). -/
def pyBulletChars : List Char := [' ', '-', '•', '\n', '\r', '\t']

/-- Python `s.strip(chars)` on the underlying character list: drop members of
`chars` from both ends. -/
def pyStripData (chars : List Char) (l : List Char) : List Char :=
  ((l.dropWhile (fun c => chars.contains c)).reverse.dropWhile
    (fun c => chars.contains c)).reverse

/-- Python `s.strip(chars)`. -/
def pyStrip (chars : List Char) (s : String) : String := ⟨pyStripData chars s.data⟩

/-- Auxiliary state machine for `str.splitlines`: accumulate the current line
(in reverse) and cut at `\r\n`, `\r` or `\n`. -/
def pySplitlinesAux (cur : List Char) (l : List Char) : List (List Char) :=
  match l with
  | [] => [cur.reverse]
  | '\r' :: '\n' :: rest =>
    cur.reverse :: (if rest.isEmpty then [] else pySplitlinesAux [] rest)
  | '\n' :: rest =>
    cur.reverse :: (if rest.isEmpty then [] else pySplitlinesAux [] rest)
  | '\r' :: rest =>
    cur.reverse :: (if rest.isEmpty then [] else pySplitlinesAux [] rest)
  | c :: rest => pySplitlinesAux (c :: cur) rest

/-- Python `str.splitlines()` (restricted to the `\n`, `\r`, `\r\n`
terminators, which are the only ones arising in this code base): split into
lines, with no trailing empty line for a terminal newline, and `[]` for the
empty string. -/
def pySplitlinesData (l : List Char) : List (List Char) :=
  match l with
  | [] => []
  | _ => pySplitlinesAux [] l

/-- The five fixed caption templates of `_template_captions`
(`caption_llm_adapter.py`, lines 14–20). -/
def samples (brand product : String) : List String :=
  [brand ++ " " ++ product ++ " — style meets performance.",
   "Upgrade your day with the " ++ product ++ " from " ++ brand ++ ".",
   "Feel the difference with " ++ brand ++ "\x27s " ++ product ++ ". Shop now!",
   "The " ++ product ++ " by " ++ brand ++ " — crafted for comfort.",
   "Special offer: grab the " ++ product ++ " by " ++ brand ++ " today."]

/-- `_template_captions(brand, product, n)`: the deterministic template cycle.
The Python loop appends `samples[idx % len(samples)]` with `idx` running
`0, 1, …, n-1`. -/
def _template_captions (brand product : String) (n : Nat) : List String :=
  (List.range n).map
    (fun i => (samples brand product).get
      ⟨i % 5, by show i % 5 < 5; exact Nat.mod_lt _ (by norm_num)⟩)

/-- A Python value as decoded from a JSON response body (the shapes probed by
`_extract_text_from_response`). -/
inductive PyVal where
  | pnone : PyVal
  | pbool (b : Bool) : PyVal
  | pint (n : Int) : PyVal
  | pstr (s : String) : PyVal
  | plist (xs : List PyVal) : PyVal
  | pdict (kvs : List (String × PyVal)) : PyVal

/-- Python truth-value test `if not data: …` (falsy values of the shapes
modelled here). -/
def pyFalsy : PyVal → Bool
  | .pnone => true
  | .pbool b => !b
  | .pint n => n == 0
  | .pstr s => s.data.isEmpty
  | .plist xs => xs.isEmpty
  | .pdict kvs => kvs.isEmpty

/-- Dictionary lookup `d[k]` / `k in d` (keys are unique; insertion order as
list order). -/
def dictGet (kvs : List (String × PyVal)) (k : String) : Option PyVal :=
  (kvs.find? (fun kv => kv.1 == k)).map (fun kv => kv.2)

mutual

/-- Python `repr` of a decoded value, used only through `str(data)`;
string escaping inside nested values is not reproduced (no claim depends
on it). -/
def pyRepr : PyVal → String
  | .pnone => "None"
  | .pbool b => if b then "True" else "False"
  | .pint n => toString n
  | .pstr s => "\x27" ++ s ++ "\x27"
  | .plist xs => "[" ++ pyReprList xs ++ "]"
  | .pdict kvs => "\x7b" ++ pyReprDict kvs ++ "\x7d"

def pyReprList : List PyVal → String
  | [] => ""
  | [x] => pyRepr x
  | x :: xs => pyRepr x ++ ", " ++ pyReprList xs

def pyReprDict : List (String × PyVal) → String
  | [] => ""
  | [kv] => "\x27" ++ kv.1 ++ "\x27: " ++ pyRepr kv.2
  | kv :: kvs => "\x27" ++ kv.1 ++ "\x27: " ++ pyRepr kv.2 ++ ", " ++ pyReprDict kvs

end

/-- Python `str(data)`: a string stays itself, everything else is its repr. -/
def pyStr : PyVal → String
  | .pstr s => s
  | v => pyRepr v

/-- Try the keys `content`, `output`, `text` (in that order) on a dict,
returning the first that is bound to a string — the inner key loop of the
candidates branch. -/
def firstStrKey (d : List (String × PyVal)) (keys : List String) : Option String :=
  match keys with
  | [] => none
  | k :: ks =>
    match dictGet d k with
    | some (.pstr s) => some s
    | _ => firstStrKey d ks

/-- `_extract_text_from_response(data)` (`caption_llm_adapter.py`,
lines 66–104): defensive parsing of the response shape.  Returns `none`
exactly where the Python function returns `None` (a falsy payload); the
final `str(data)` fallback means every truthy payload yields some text. -/
def _extract_text_from_response (data : PyVal) : Option String :=
  if pyFalsy data then none
  else
    match data with
    | .pdict kvs =>
      let cands : Option String :=
        match dictGet kvs "candidates" with
        | some (.plist (first :: _)) =>
          (match first with
           | .pdict d1 => firstStrKey d1 ["content", "output", "text"]
           | .pstr s => some s
           | _ => none)
        | _ => none
      (match cands with
       | some s => some s
       | none =>
         match firstStrKey kvs ["output", "text", "content"] with
         | some s => some s
         | none =>
           match kvs.find? (fun kv => match kv.2 with
             | .pstr s => 10 < s.length
             | _ => false) with
           | some kv => some (match kv.2 with | .pstr s => s | _ => "")
           | none => some (pyStr data))
    | _ => some (pyStr data)

/-- The outcome of the guarded `_call_rest` block: either some exception was
raised (connection error, HTTP error, timeout — all collapse to
`RuntimeError` in `_call_rest`), or a decoded JSON payload came back. -/
inductive CallOutcome where
  | raisesErr : CallOutcome
  | ok (data : PyVal) : CallOutcome

/-- Python falsiness of `self.api_key` (`None` or the empty string). -/
def keyFalsy : Option String → Bool
  | none => true
  | some s => s.data.isEmpty

/-- The newline-split, whitespace-nonblank lines of the response text,
before bullet-trimming: `[l for l in text.splitlines() if l.strip()]`. -/
def rawCaptionLines (text : String) : List (List Char) :=
  (pySplitlinesData text.data).filter
    (fun l => !(pyStripData pyWsChars l).isEmpty)

/-- `lines = [l.strip(" -•\n\r\t") for l in text.splitlines() if l.strip()]`. -/
def captionLines (text : String) : List String :=
  (rawCaptionLines text).map (fun l => (⟨pyStripData pyBulletChars l⟩ : String))

/-- The character class of `re.split(r'[\\.!;\\n]', text)`.  In the raw
pattern the class contains a literal backslash, `.`, `!`, `;`, a second
literal backslash and the letter `n` — not a newline. -/
def reSplitChars : List Char := ['\\', '.', '!', ';', 'n']

/-- The sentence-split fallback:
`[s.strip() for s in re.split(r'[\\.!;\\n]', text) if s.strip()]`. -/
def sentenceLines (text : String) : List String :=
  ((splitOnChars reSplitChars text.data).filter
    (fun l => !(pyStripData pyWsChars l).isEmpty)).map
    (fun l => (⟨pyStripData pyWsChars l⟩ : String))

/-- The usable caption lines the adapter extracts from a response text:
newline-split lines, or — when these are all blank — the sentence-split
fallback. -/
def adapterLines (text : String) : List String :=
  let lines := captionLines text
  if lines.isEmpty then sentenceLines text else lines

/-- `GeminiCaptionAdapter.generate_captions(brand, product, n)`
(`caption_llm_adapter.py`, lines 106–138).  The remote interaction is the
explicit `outcome` argument; every other step follows the source: no key —
templates; call raised — templates; falsy extracted text — templates;
otherwise split into lines, keep the first `n`, pad from the template cycle,
truncate to `n`. -/
def generate_captions (api_key : Option String) (outcome : CallOutcome)
    (brand product : String) (n : Nat) : List String :=
  if keyFalsy api_key then _template_captions brand product n
  else
    match outcome with
    | .raisesErr => _template_captions brand product n
    | .ok data =>
      match _extract_text_from_response data with
      | none => _template_captions brand product n
      | some text =>
        if text.data.isEmpty then _template_captions brand product n
        else
          let lines := adapterLines text
          let out := lines.take n
          let out := if out.length < n
            then out ++ _template_captions brand product (n - out.length)
            else out
          out.take n

/-- The body of the successful-response branch of `generate_captions`
(split lines, keep the first `n`, pad from the template cycle, truncate). -/
def captions_from_text (brand product : String) (n : Nat) (text : String) :
    List String :=
  let lines := adapterLines text
  let out := lines.take n
  let out := if out.length < n
    then out ++ _template_captions brand product (n - out.length)
    else out
  out.take n

/-- The padding behaviour asserted by the claim for C3, written from the
claim's words (not from the source): after `k` extracted lines, the template
cycle is supposed to continue at internal index `k`, `k+1`, …, rather than
restart at the first template. -/
def continuedTemplatePad (brand product : String) (k n : Nat) : List String :=
  (List.range (n - k)).map
    (fun j => (samples brand product).get
      ⟨(k + j) % 5, by show (k + j) % 5 < 5; exact Nat.mod_lt _ (by norm_num)⟩)

/-- The full result shape asserted by the claim for C3, written from the
claim's words: the `k` extracted lines followed by the continuing template
cycle. -/
def c3ClaimedResult (brand product : String) (extracted : List String)
    (n : Nat) : List String :=
  extracted.take n ++
    continuedTemplatePad brand product (extracted.take n).length n

/-- Decimal digit character (`'0'` + d). -/
def digitChar (d : Nat) : Char := Char.ofNat (48 + d % 10)

/-- Decimal digits of a natural number, fuel-structured so that it reduces in
the kernel (`fuel = m + 1` always suffices since `m / 10 < m` for `m ≥ 10`). -/
def natDigitsAux : Nat → Nat → List Char → List Char
  | 0, _, acc => acc
  | fuel + 1, m, acc =>
    if m < 10 then digitChar m :: acc
    else natDigitsAux fuel (m / 10) (digitChar (m % 10) :: acc)

/-- Decimal representation of a natural number (Python `str(m)` for `m ≥ 0`). -/
def natRepr (m : Nat) : String := ⟨natDigitsAux (m + 1) m []⟩

/-- Python `f"{m:02d}"` for a non-negative number: zero-pad to two digits. -/
def pad2 (m : Nat) : String := if m < 10 then "0" ++ natRepr m else natRepr m

/-- The four-plus-one caption templates of the compositor's
`generate_caption` (`generate_creatives.py`, lines 86–92); note the fourth
one differs from the adapter's (`… comfort and quality.`). -/
def captionTemplates (brand product : String) : List String :=
  [brand ++ " " ++ product ++ " — style meets performance.",
   "Upgrade your day with the " ++ product ++ " from " ++ brand ++ ".",
   "Feel the difference with " ++ brand ++ "\x27s " ++ product ++ ". Shop now!",
   "The " ++ product ++ " by " ++ brand ++ " — crafted for comfort and quality.",
   "Special offer: grab the " ++ product ++ " by " ++ brand ++ " today."]

/-- `generate_caption(brand, product)`: `random.choice(templates)`, with the
drawn index supplied by the explicit randomness oracle (`choice` is reduced
mod 5, the template count). -/
def generate_caption (brand product : String) (choice : Nat) : String :=
  (captionTemplates brand product).get
    ⟨choice % 5, by show choice % 5 < 5; exact Nat.mod_lt _ (by norm_num)⟩

/-- Contents of a file in the modelled file system.  The pixel payload of a
saved creative is opaque (`image i` for iteration `i`): no claim inspects
pixel data of the saved files. -/
inductive FileData where
  | image (id : Nat) : FileData
  | text (s : String) : FileData
  | blob : FileData
deriving DecidableEq

/-- Whether `PIL.Image.open` succeeds on the file's content. -/
def decodable : FileData → Bool
  | .image _ => true
  | _ => false

/-- Look a path up in the modelled file system (a list of path/content
pairs). -/
def fsLookup (fs : List (String × FileData)) (p : String) : Option FileData :=
  (fs.find? (fun e => e.1 == p)).map (fun e => e.2)

/-- Write (create or overwrite) a file. -/
def fsWrite (fs : List (String × FileData)) (p : String) (d : FileData) :
    List (String × FileData) :=
  fs.filter (fun e => !(e.1 == p)) ++ [(p, d)]

/-- Perform a sequence of writes in order. -/
def writeAll (fs : List (String × FileData))
    (ws : List (String × FileData)) : List (String × FileData) :=
  ws.foldl (fun acc w => fsWrite acc w.1 w.2) fs

/-- The value returned by a compositor entry point: Python is dynamically
typed, so the model distinguishes a single path from a list of filename
strings. -/
inductive PyObj where
  | path (s : String) : PyObj
  | strList (xs : List String) : PyObj
deriving DecidableEq

/-- `Path(p).resolve()` relative to a current working directory: absolute
paths stay, relative ones are anchored at `cwd`. -/
def resolvePath (cwd p : String) : String :=
  if p.data.head? = some '/' then p else cwd ++ "/" ++ p

/-- State threaded through the per-creative loop of
`generate_variations_improved`: the image files written so far and the
caption lines accumulated in `captions`. -/
structure GenState where
  writes : List (String × FileData)
  captions : List String
deriving DecidableEq

/-- One iteration of the loop body (`for i in range(n)`): all the drawing is
pixel-level and ends in the two `final.save` calls for
`creative_{i+1:02d}.png` / `.jpg`, plus one caption line
`f"{filename_base}.jpg\t{caption}"`. -/
def genLoopStep (out_dir brand product : String) (caprand : Nat → Nat)
    (i : Nat) (st : GenState) : GenState :=
  let base := "creative_" ++ pad2 (i + 1)
  let cap := generate_caption brand product (caprand i)
  { writes := st.writes ++
      [(out_dir ++ "/" ++ base ++ ".png", FileData.image i),
       (out_dir ++ "/" ++ base ++ ".jpg", FileData.image i)],
    captions := st.captions ++ [base ++ ".jpg\t" ++ cap] }

/-- The whole `for i in range(n)` loop. -/
def genLoop (out_dir brand product : String) (caprand : Nat → Nat) :
    Nat → GenState
  | 0 => { writes := [], captions := [] }
  | m + 1 => genLoopStep out_dir brand product caprand m
      (genLoop out_dir brand product caprand m)

/-- The result of a successful `generate_variations_improved` call: the file
system afterwards, the log of file writes performed, and the returned
value. -/
structure RunResult where
  fs : List (String × FileData)
  writes : List (String × FileData)
  ret : PyObj
deriving DecidableEq

/-- `generate_variations_improved(logo_path, product_path, out_dir, n, size,
brand_name, product_name)` (`generate_creatives.py`, lines 177–335).
`ensure_dir` is a no-op in the model (directories are implicit).  The two
existence checks raise `FileNotFoundError`; `Image.open` raises on an
undecodable file.  Then the loop writes `creative_{i+1:02d}.png`/`.jpg` and
collects one caption line per creative; finally `captions.txt` is written
(overwritten wholesale) with the `"\n"`-joined lines, and the function
returns `Path(out_dir).resolve()` — a single resolved directory path. -/
def generate_variations_improved (fs : List (String × FileData))
    (cwd logo_path product_path out_dir : String) (n size : Nat)
    (brand_name product_name : String) (caprand : Nat → Nat) :
    Except String RunResult :=
  match fsLookup fs logo_path with
  | none => .error ("Logo not found: " ++ logo_path)
  | some dl =>
    match fsLookup fs product_path with
    | none => .error ("Product image not found: " ++ product_path)
    | some dp =>
      if !decodable dl then .error "cannot identify image file (logo)"
      else if !decodable dp then .error "cannot identify image file (product)"
      else
        let st := genLoop out_dir brand_name product_name caprand n
        let capContent := pyJoin "\n" st.captions
        let allWrites := st.writes ++
          [(out_dir ++ "/captions.txt", FileData.text capContent)]
        .ok { fs := writeAll fs allWrites,
              writes := allWrites,
              ret := PyObj.path (resolvePath cwd out_dir) }

/-- `generate_variations` (`generate_creatives.py`, lines 339–343): the
backward-compatibility alias, forwarding every argument unchanged to
`generate_variations_improved`. -/
def generate_variations (fs : List (String × FileData))
    (cwd logo_path product_path out_dir : String) (n size : Nat)
    (brand_name product_name : String) (caprand : Nat → Nat) :
    Except String RunResult :=
  generate_variations_improved fs cwd logo_path product_path out_dir n size
    brand_name product_name caprand

/-- The caption lines the compositor accumulates for a run, in closed form. -/
def compositorCaptionLines (brand product : String) (caprand : Nat → Nat)
    (n : Nat) : List String :=
  (List.range n).map
    (fun i => "creative_" ++ pad2 (i + 1) ++ ".jpg\t" ++
      generate_caption brand product (caprand i))

/-- The image-file writes of a run, in closed form: two encodings per
creative, sharing the stem `creative_{i+1:02d}`. -/
def compositorImageWrites (out_dir : String) (n : Nat) :
    List (String × FileData) :=
  (List.range n).flatMap
    (fun i =>
      [(out_dir ++ "/" ++ ("creative_" ++ pad2 (i + 1)) ++ ".png", FileData.image i),
       (out_dir ++ "/" ++ ("creative_" ++ pad2 (i + 1)) ++ ".jpg", FileData.image i)])

/-- The caption-file write of a run. -/
def captionsFileWrite (out_dir brand product : String) (caprand : Nat → Nat)
    (n : Nat) : String × FileData :=
  (out_dir ++ "/captions.txt",
   FileData.text (pyJoin "\n" (compositorCaptionLines brand product caprand n)))

/-- A two-file demo file system used by the concrete witnesses: a decodable
logo and a decodable product image. -/
def demoFs : List (String × FileData) :=
  [("logo.png", FileData.image 100), ("prod.png", FileData.image 101)]

/-- The value returned by a compositor run, when it succeeded. -/
def runRet : Except String RunResult → Option PyObj
  | .ok r => some r.ret
  | .error _ => none

/-- The final path component (Python `Path(p).name`): everything after the
last `/`. -/
def afterLastSlash (l : List Char) : List Char :=
  (l.reverse.takeWhile (fun c => !(c == '/'))).reverse

/-- `Path(p).name` as a string. -/
def bareName (p : String) : String := ⟨afterLastSlash p.data⟩

/-- Whether `p` is an immediate child path of the directory `dir`
(what `Path(dir).iterdir()` yields): `dir/` is a proper initial run of `p`
and the remainder is a nonempty name with no further `/`. -/
def isImmediateChildOf (dir p : String) : Bool :=
  let d := dir.data ++ ['/']
  (p.data.take d.length == d) &&
    (let rest := p.data.drop d.length
     !rest.isEmpty && !rest.contains '/')

/-- A file on disk: full path and content bytes. -/
structure FsFile where
  path : String
  bytes : List Nat
deriving DecidableEq

/-- `Path(folder).iterdir()` over a modelled file population: the files whose
path is an immediate child of the folder (deeper files belong to
subdirectories and are not yielded). -/
def iterdir (dir : String) (fs : List FsFile) : List FsFile :=
  fs.filter (fun f => isImmediateChildOf dir f.path)

/-- `create_zip(folder, zip_path)` (`utils.py`, lines 6–10): one archive
entry per immediate child of the folder, stored under `arcname=f.name`
(the bare filename) with the file's bytes. -/
def create_zip (dir : String) (fs : List FsFile) : List (String × List Nat) :=
  (iterdir dir fs).map (fun f => (bareName f.path, f.bytes))

/-- Python `str.lower` (ASCII case, sufficient for the extensions compared
here). -/
def strLower (s : String) : String := ⟨s.data.map Char.toLower⟩

/-- Python `Path(p).suffix`: the final component's extension including the
dot, or `""` when there is no dot or the name starts with its only dot. -/
def pySuffix (s : String) : String :=
  let base := afterLastSlash s.data
  let ext := base.reverse.takeWhile (fun c => !(c == '.'))
  if ext.length + 1 < base.length then (⟨'.' :: ext.reverse⟩ : String) else ""

/-- The suffixes admitted by the merge step,
`[p for p in run_dir.iterdir() if p.suffix.lower() in [".jpg", ".jpeg", ".png"]]`. -/
def appAllowedExts : List String := [".jpg", ".jpeg", ".png"]

/-- `img_files = sorted([p for p in run_dir.iterdir() if p.suffix.lower() in …])`
(`app.py`, line 131), on the bare filenames of the run directory: the
alphabetically sorted image files — both encodings of every creative *and*
the uploaded `logo_*`/`product_*` files all pass this filter. -/
def appImgFiles (files : List String) : List String :=
  sortStrings (files.filter
    (fun f => appAllowedExts.contains (strLower (pySuffix f))))

/-- The overwrite loop of `app.py`, lines 132–135:
`for idx, img in enumerate(img_files[:len(captions_list)]):
out_lines.append(f"{img.name}\t{captions_list[idx]}")`. -/
def mergeGeminiCaptions (files : List String) (captions_list : List String) :
    List String :=
  List.zipWith (fun img c => img ++ "\t" ++ c)
    ((appImgFiles files).take captions_list.length) captions_list

/-- The lines of the final `captions.txt` of a run: the compositor's lines,
unless a truthy `captions_list` came back from the adapter, in which case
the merge overwrites the file (`app.py`, lines 129–135). -/
def appFinalCaptionLines (compositor : List String) (files : List String)
    (captionsOpt : Option (List String)) : List String :=
  match captionsOpt with
  | some cl => if cl.isEmpty then compositor else mergeGeminiCaptions files cl
  | none => compositor

/-- The bare filenames present in a run directory after an `n = 1` run:
the two uploads, the two encodings of the single creative, and
`captions.txt`. -/
def c4RunDirFiles : List String :=
  ["captions.txt", "creative_01.jpg", "creative_01.png",
   "logo_l.png", "product_p.png"]

/-- A pixel with red/green/blue/alpha channels. -/
structure Pix where
  r : Nat
  g : Nat
  b : Nat
  a : Nat
deriving DecidableEq

/-- The PIL image modes relevant to `_autocrop_to_subject`: `RGBA`, an
opaque colour mode, or single-channel `L` (value stored in `r`). -/
inductive PMode where
  | rgba : PMode
  | rgb : PMode
  | lmode : PMode
deriving DecidableEq

/-- An image: mode plus a row-major pixel grid. -/
structure Img where
  mode : PMode
  px : List (List Pix)
deriving DecidableEq

def imgH (img : Img) : Nat := img.px.length

def imgW (img : Img) : Nat := (img.px.headD []).length

/-- A rectangular grid: every row has the width of the first. -/
def ImgRect (img : Img) : Prop := ∀ row ∈ img.px, row.length = imgW img

/-- `img.split()[-1]` for RGBA: the alpha channel as a single-channel grid. -/
def alphaGrid (img : Img) : List (List Nat) :=
  img.px.map (fun row => row.map Pix.a)

/-- `img.convert("L")` per pixel: identity on mode `L`, otherwise the
ITU-R 601-2 luma transform documented for PIL,
`L = R * 299/1000 + G * 587/1000 + B * 114/1000`. -/
def lumOf (m : PMode) (p : Pix) : Nat :=
  match m with
  | .lmode => p.r
  | _ => (299 * p.r + 587 * p.g + 114 * p.b) / 1000

/-- `gray.point(lambda p: 255 if p < (255 - threshold) else 0)`: the
luminance mask grid. -/
def bwGrid (img : Img) (threshold : Nat) : List (List Nat) :=
  img.px.map (fun row => row.map
    (fun p => if lumOf img.mode p < 255 - threshold then (255 : Nat) else 0))

/-- First index `i` in `[start, start+count)` with `p i`, or `none`. -/
def firstIdxAux (p : Nat → Bool) : Nat → Nat → Option Nat
  | _, 0 => none
  | i, m + 1 => if p i then some i else firstIdxAux p (i + 1) m

def firstIdx (p : Nat → Bool) (bound : Nat) : Option Nat := firstIdxAux p 0 bound

/-- Last index `i < bound` with `p i`, or `none`. -/
def lastIdxAux (p : Nat → Bool) : Nat → Option Nat
  | 0 => none
  | m + 1 => if p m then some m else lastIdxAux p m

/-- Whether a mask row holds any non-zero value. -/
def rowNonzero (row : List Nat) : Bool := row.any (fun v => v != 0)

/-- Whether mask column `j` holds any non-zero value. -/
def colNonzero (g : List (List Nat)) (j : Nat) : Bool :=
  g.any (fun row => row.getD j 0 != 0)

/-- `Image.getbbox()` on a single-channel mask: the bounding box
`(left, upper, right, lower)` of the non-zero region, right/lower exclusive,
or `none` when the mask is all zero. -/
def gridBBox (g : List (List Nat)) : Option (Nat × Nat × Nat × Nat) :=
  match firstIdx (fun i => rowNonzero (g.getD i [])) g.length,
        lastIdxAux (fun i => rowNonzero (g.getD i [])) g.length,
        firstIdx (fun j => colNonzero g j) (g.headD []).length,
        lastIdxAux (fun j => colNonzero g j) (g.headD []).length with
  | some u, some dd, some l, some rr => some (l, u, rr + 1, dd + 1)
  | _, _, _, _ => none

/-- `img.crop((l, u, r, d))` on a grid: rows `[u, d)`, columns `[l, r)`. -/
def cropGridN (g : List (List Nat)) (l u r d : Nat) : List (List Nat) :=
  ((g.drop u).take (d - u)).map (fun row => (row.drop l).take (r - l))

/-- `img.crop((l, u, r, d))` on an image. -/
def cropImg (img : Img) (l u r d : Nat) : Img :=
  { mode := img.mode,
    px := ((img.px.drop u).take (d - u)).map
      (fun row => (row.drop l).take (r - l)) }

/-- The fallback centre square crop of side `min(w, h)`
(`generate_creatives.py`, lines 117–121). -/
def centerSquareCrop (img : Img) : Img :=
  let w := imgW img
  let h := imgH img
  let ms := min w h
  cropImg img ((w - ms) / 2) ((h - ms) / 2) ((w - ms) / 2 + ms) ((h - ms) / 2 + ms)

/-- `_autocrop_to_subject(img, threshold)` (`generate_creatives.py`,
lines 98–121): for RGBA, crop to the alpha bounding box when it exists;
*in every other case* — including an RGBA image whose alpha box is missing —
threshold the luminance and crop to that bounding box; only when that too is
missing, return the centre square crop. -/
def _autocrop_to_subject (img : Img) (threshold : Nat) : Img :=
  let alphaRes : Option Img :=
    if img.mode = PMode.rgba then
      match gridBBox (alphaGrid img) with
      | some (l, u, r, d) => some (cropImg img l u r d)
      | none => none
    else none
  match alphaRes with
  | some res => res
  | none =>
    match gridBBox (bwGrid img threshold) with
    | some (l, u, r, d) => cropImg img l u r d
    | none => centerSquareCrop img

/-- The behaviour asserted by the claim for C7, written from the claim's
words (not from the source): RGBA images crop to the alpha bounding box, and
whenever "no bounding box is found" in the applicable branch the result is
the centred square crop — so an RGBA image with no alpha bounding box goes
straight to the centred square crop, without the luminance pass. -/
def autocropClaim (img : Img) (threshold : Nat) : Img :=
  if img.mode = PMode.rgba then
    match gridBBox (alphaGrid img) with
    | some (l, u, r, d) => cropImg img l u r d
    | none => centerSquareCrop img
  else
    match gridBBox (bwGrid img threshold) with
    | some (l, u, r, d) => cropImg img l u r d
    | none => centerSquareCrop img

/-- A 2×1 fully transparent RGBA image with black colour channels: the code's
concrete behaviour on it refutes the claim's reading. -/
def c7Img : Img :=
  { mode := PMode.rgba,
    px := [[Pix.mk 0 0 0 0, Pix.mk 0 0 0 0]] }

/-- A 1×2 RGBA image with one opaque pixel at column 1. -/
def c7OpqImg : Img :=
  { mode := PMode.rgba,
    px := [[Pix.mk 0 0 0 0, Pix.mk 1 2 3 255]] }

/-! ## Theorems -/

theorem splitOnChars_ne_nil (seps : List Char) (l : List Char) :
    splitOnChars seps l ≠ [] := by
  cases l with
  | nil => simp [splitOnChars]
  | cons c cs =>
    simp only [splitOnChars]
    by_cases h : seps.contains c = true
    · rw [if_pos h]; simp
    · rw [if_neg h]
      cases splitOnChars seps cs <;> simp

theorem splitOnChars_of_no_sep (seps : List Char) (l : List Char)
    (h : ∀ c ∈ l, seps.contains c = false) :
    splitOnChars seps l = [l] := by
  induction l with
  | nil => rfl
  | cons c cs ih =>
    have hc : seps.contains c = false := h c (by simp)
    have hrest : ∀ x ∈ cs, seps.contains x = false := fun x hx => h x (by simp [hx])
    simp only [splitOnChars]
    rw [if_neg (by simpa using hc), ih hrest]

theorem splitOnChars_append_cons (seps : List Char) (a rest : List Char)
    (hsep : seps.contains '\n' = true)
    (ha : ∀ c ∈ a, seps.contains c = false) :
    splitOnChars seps (a ++ '\n' :: rest) = a :: splitOnChars seps rest := by
  induction a with
  | nil =>
    simp only [List.nil_append, splitOnChars]
    rw [if_pos hsep]
  | cons c cs ih =>
    have hc : seps.contains c = false := ha c (by simp)
    have hrest : ∀ x ∈ cs, seps.contains x = false := fun x hx => ha x (by simp [hx])
    simp only [List.cons_append, splitOnChars]
    rw [if_neg (by simpa using hc),
      show cs.append ('\n' :: rest) = cs ++ '\n' :: rest from rfl, ih hrest]

theorem data_pyJoin_cons (x y : String) (ys : List String) :
    (pyJoin "\n" (x :: y :: ys)).data = x.data ++ '\n' :: (pyJoin "\n" (y :: ys)).data := by
  show (x ++ "\n" ++ pyJoin "\n" (y :: ys)).data = _
  rw [String.data_append, String.data_append]
  simp

/-- Round trip: joining newline-free lines with `'\n'` and splitting the file
back into lines recovers the original list (for at least one line). -/
theorem fileLines_pyJoin (ls : List String) (h0 : ls ≠ [])
    (h : ∀ s ∈ ls, ('\n' ∉ s.data)) :
    fileLines (pyJoin "\n" ls) = ls := by
  induction ls with
  | nil => exact absurd rfl h0
  | cons x xs ih =>
    have hx : ∀ c ∈ x.data, List.contains ['\n'] c = false := by
      intro c hc
      have hne : c ≠ '\n' := fun hcn => h x (by simp) (hcn ▸ hc)
      simp only [List.contains, List.elem_eq_mem, List.mem_singleton,
        decide_eq_false_iff_not]
      exact hne
    cases xs with
    | nil =>
      simp only [pyJoin, fileLines, splitOnChars_of_no_sep _ _ hx, List.map]
    | cons y ys =>
      have hrest : ∀ s ∈ y :: ys, ('\n' ∉ s.data) := fun s hs => h s (by simp [hs])
      have hih := ih (by simp) hrest
      simp only [fileLines] at hih ⊢
      rw [data_pyJoin_cons, splitOnChars_append_cons _ _ _ (by decide) hx]
      simp only [List.map, hih]

theorem samples_length (brand product : String) :
    (samples brand product).length = 5 := rfl

theorem _template_captions_length (brand product : String) (n : Nat) :
    (_template_captions brand product n).length = n := by
  simp [_template_captions]

theorem captionLines_length (text : String) :
    (captionLines text).length = (rawCaptionLines text).length := by
  simp [captionLines]

/-- C5: with no API credential configured (a falsy `self.api_key`), the
adapter's `generate_captions` returns exactly the output of the fallback
`_template_captions`, for every brand, product, count and remote outcome. -/
theorem C5_no_key_returns_templates (api_key : Option String)
    (outcome : CallOutcome) (brand product : String) (n : Nat)
    (h : keyFalsy api_key = true) :
    generate_captions api_key outcome brand product n =
      _template_captions brand product n := by
  unfold generate_captions
  rw [if_pos h]

theorem C5_no_key_returns_templates_witness :
    keyFalsy none = true ∧
      generate_captions none CallOutcome.raisesErr "Acme" "Boots" 3 =
        _template_captions "Acme" "Boots" 3 :=
  ⟨by decide,
   C5_no_key_returns_templates none CallOutcome.raisesErr "Acme" "Boots" 3 (by decide)⟩

theorem captions_from_text_length (brand product : String) (n : Nat)
    (text : String) :
    (captions_from_text brand product n text).length = n := by
  unfold captions_from_text
  dsimp only
  split
  · simp only [List.length_take, List.length_append, _template_captions_length]
    omega
  · rename_i hge
    simp only [List.length_take] at hge ⊢
    omega

/-- C6: `generate_captions` never fails outward — it is a total function in
this model, and for every key configuration, every remote outcome (raised
call, falsy payload, payload with no usable text, usable text) and every
`n ≥ 1`, it returns a list of exactly `n` caption strings, template-padded
or truncated to `n`. -/
theorem C6_always_n_captions (api_key : Option String) (outcome : CallOutcome)
    (brand product : String) (n : Nat) (_hn : 1 ≤ n) :
    (generate_captions api_key outcome brand product n).length = n := by
  unfold generate_captions
  by_cases hk : keyFalsy api_key = true
  · rw [if_pos hk, _template_captions_length]
  · rw [if_neg hk]
    cases outcome with
    | raisesErr => exact _template_captions_length brand product n
    | ok data =>
      show (match _extract_text_from_response data with
        | none => _template_captions brand product n
        | some text =>
          if text.data.isEmpty then _template_captions brand product n
          else captions_from_text brand product n text).length = n
      cases _extract_text_from_response data with
      | none => exact _template_captions_length brand product n
      | some text =>
        show (if text.data.isEmpty then _template_captions brand product n
          else captions_from_text brand product n text).length = n
        by_cases ht : text.data.isEmpty = true
        · rw [if_pos ht]
          exact _template_captions_length brand product n
        · rw [if_neg ht]
          exact captions_from_text_length brand product n text

theorem C6_always_n_captions_witness :
    1 ≤ 4 ∧
      (generate_captions (some "key") (CallOutcome.ok (PyVal.pdict []))
        "Acme" "Boots" 4).length = 4 :=
  ⟨by decide,
   C6_always_n_captions (some "key") (CallOutcome.ok (PyVal.pdict []))
     "Acme" "Boots" 4 (by decide)⟩

theorem keyFalsy_ne_true {k : Option String} (hk : keyFalsy k = false) :
    ¬keyFalsy k = true := by rw [hk]; exact Bool.false_ne_true

theorem rawCaptionLines_len_pos_ne_empty {text : String} {n : Nat}
    (hn : 1 ≤ n) (hlen : n ≤ (rawCaptionLines text).length) :
    text.data.isEmpty = false := by
  cases hd : text.data with
  | nil =>
    exfalso
    have h0 : (rawCaptionLines text).length = 0 := by
      unfold rawCaptionLines
      rw [hd]
      rfl
    omega
  | cons c cs => rfl

/-- C8: on a successful response whose extracted text splits into `n` or more
whitespace-nonblank lines, `generate_captions` returns exactly the first `n`
of those lines, each trimmed of surrounding whitespace and bullet
characters. -/
theorem C8_first_n_lines (api_key : Option String) (data : PyVal)
    (brand product : String) (n : Nat) (text : String)
    (hk : keyFalsy api_key = false)
    (hext : _extract_text_from_response data = some text)
    (hn : 1 ≤ n)
    (hlen : n ≤ (rawCaptionLines text).length) :
    generate_captions api_key (CallOutcome.ok data) brand product n =
      ((rawCaptionLines text).take n).map
        (fun l => (⟨pyStripData pyBulletChars l⟩ : String)) := by
  have htne : text.data.isEmpty = false := rawCaptionLines_len_pos_ne_empty hn hlen
  unfold generate_captions
  rw [if_neg (keyFalsy_ne_true hk)]
  show (match _extract_text_from_response data with
    | none => _template_captions brand product n
    | some t =>
      if t.data.isEmpty then _template_captions brand product n
      else captions_from_text brand product n t) = _
  rw [hext]
  show (if text.data.isEmpty then _template_captions brand product n
    else captions_from_text brand product n text) = _
  rw [if_neg (by rw [htne]; exact Bool.false_ne_true)]
  unfold captions_from_text
  dsimp only
  have hne : captionLines text ≠ [] := by
    intro h0
    have hl := captionLines_length text
    rw [h0] at hl
    simp only [List.length_nil] at hl
    omega
  have hLines : adapterLines text = captionLines text := by
    unfold adapterLines
    dsimp only
    rw [if_neg (by simpa using hne)]
  rw [hLines]
  have hmt : captionLines text = (rawCaptionLines text).map
      (fun l => (⟨pyStripData pyBulletChars l⟩ : String)) := rfl
  rw [hmt]
  have hlen2 : (((rawCaptionLines text).map
      (fun l => (⟨pyStripData pyBulletChars l⟩ : String))).take n).length = n := by
    simp only [List.length_take, List.length_map]
    omega
  rw [if_neg (by rw [hlen2]; exact lt_irrefl n)]
  rw [List.take_take, min_self, List.map_take]

theorem C8_first_n_lines_witness :
    keyFalsy (some "key") = false ∧
      _extract_text_from_response (PyVal.pdict [("output", PyVal.pstr "A\nB\nC")])
        = some "A\nB\nC" ∧
      1 ≤ 2 ∧ 2 ≤ (rawCaptionLines "A\nB\nC").length ∧
      generate_captions (some "key")
          (CallOutcome.ok (PyVal.pdict [("output", PyVal.pstr "A\nB\nC")]))
          "Acme" "Boots" 2 =
        ((rawCaptionLines "A\nB\nC").take 2).map
          (fun l => (⟨pyStripData pyBulletChars l⟩ : String)) :=
  ⟨by decide, by decide, by decide, by decide,
   C8_first_n_lines (some "key") (PyVal.pdict [("output", PyVal.pstr "A\nB\nC")])
     "Acme" "Boots" 2 "A\nB\nC" (by decide) (by decide) (by decide) (by decide)⟩

/-- C3 counterexample: with one usable extracted line (`"Hello"`) and `n = 2`,
the code pads with `_template_captions(brand, product, 1)`, whose cycle
restarts at the *first* template (`samples[0]`), not at the continued index
`samples[1]` asserted by the claim. -/
theorem C3_counterexample_pad_restarts :
    generate_captions (some "key")
        (CallOutcome.ok (PyVal.pdict [("output", PyVal.pstr "Hello")]))
        "B" "P" 2 =
      ["Hello", "B P — style meets performance."] ∧
    adapterLines "Hello" = ["Hello"] ∧
    c3ClaimedResult "B" "P" (adapterLines "Hello") 2 =
      ["Hello", "Upgrade your day with the P from B."] ∧
    generate_captions (some "key")
        (CallOutcome.ok (PyVal.pdict [("output", PyVal.pstr "Hello")]))
        "B" "P" 2 ≠
      c3ClaimedResult "B" "P" (adapterLines "Hello") 2 := by
  refine ⟨by decide, by decide, by decide, by decide⟩

/-- C3 as amended: when the extracted usable lines number `k < n`, the result
is those `k` lines followed by `_template_captions(brand, product, n - k)` —
the template cycle restarted at its first template. -/
theorem C3_amended_pad_restarts (api_key : Option String) (data : PyVal)
    (brand product : String) (n : Nat) (text : String)
    (hk : keyFalsy api_key = false)
    (hext : _extract_text_from_response data = some text)
    (htne : text.data.isEmpty = false)
    (hshort : (adapterLines text).length < n) :
    generate_captions api_key (CallOutcome.ok data) brand product n =
      adapterLines text ++
        _template_captions brand product (n - (adapterLines text).length) := by
  unfold generate_captions
  rw [if_neg (keyFalsy_ne_true hk)]
  show (match _extract_text_from_response data with
    | none => _template_captions brand product n
    | some t =>
      if t.data.isEmpty then _template_captions brand product n
      else captions_from_text brand product n t) = _
  rw [hext]
  show (if text.data.isEmpty then _template_captions brand product n
    else captions_from_text brand product n text) = _
  rw [if_neg (by rw [htne]; exact Bool.false_ne_true)]
  unfold captions_from_text
  dsimp only
  have htake : (adapterLines text).take n = adapterLines text :=
    List.take_of_length_le (le_of_lt hshort)
  rw [htake, if_pos hshort]
  have hfull : (adapterLines text ++
      _template_captions brand product (n - (adapterLines text).length)).length
      = n := by
    simp only [List.length_append, _template_captions_length]
    omega
  rw [List.take_of_length_le (le_of_eq hfull)]

theorem C3_amended_pad_restarts_witness :
    keyFalsy (some "key") = false ∧
      _extract_text_from_response (PyVal.pdict [("output", PyVal.pstr "Hello")])
        = some "Hello" ∧
      ("Hello" : String).data.isEmpty = false ∧
      (adapterLines "Hello").length < 2 ∧
      generate_captions (some "key")
          (CallOutcome.ok (PyVal.pdict [("output", PyVal.pstr "Hello")]))
          "B" "P" 2 =
        adapterLines "Hello" ++
          _template_captions "B" "P" (2 - (adapterLines "Hello").length) :=
  ⟨by decide, by decide, by decide, by decide,
   C3_amended_pad_restarts (some "key")
     (PyVal.pdict [("output", PyVal.pstr "Hello")]) "B" "P" 2 "Hello"
     (by decide) (by decide) (by decide) (by decide)⟩

theorem captionTemplates_length (brand product : String) :
    (captionTemplates brand product).length = 5 := rfl

theorem genLoop_captions_eq (out_dir brand product : String)
    (caprand : Nat → Nat) (n : Nat) :
    (genLoop out_dir brand product caprand n).captions =
      compositorCaptionLines brand product caprand n := by
  induction n with
  | zero => rfl
  | succ m ih =>
    simp only [genLoop, genLoopStep, ih, compositorCaptionLines,
      List.range_succ, List.map_append, List.map]

theorem genLoop_writes_eq (out_dir brand product : String)
    (caprand : Nat → Nat) (n : Nat) :
    (genLoop out_dir brand product caprand n).writes =
      compositorImageWrites out_dir n := by
  induction n with
  | zero => rfl
  | succ m ih =>
    simp only [genLoop, genLoopStep, ih, compositorImageWrites,
      List.range_succ, List.flatMap_append, List.flatMap_cons,
      List.flatMap_nil, List.append_nil]

theorem compositorCaptionLines_length (brand product : String)
    (caprand : Nat → Nat) (n : Nat) :
    (compositorCaptionLines brand product caprand n).length = n := by
  simp [compositorCaptionLines]

theorem noNL_append {a b : String} (ha : '\n' ∉ a.data) (hb : '\n' ∉ b.data) :
    '\n' ∉ (a ++ b).data := by
  rw [String.data_append]
  intro h
  rcases List.mem_append.mp h with h' | h'
  · exact ha h'
  · exact hb h'

theorem digitChar_ne_nl (d : Nat) : digitChar d ≠ '\n' := by
  unfold digitChar
  have h10 : d % 10 < 10 := Nat.mod_lt _ (by norm_num)
  set k := d % 10 with hk
  interval_cases k <;> decide

theorem noNL_natDigitsAux (fuel : Nat) :
    ∀ (m : Nat) (acc : List Char), (∀ c ∈ acc, c ≠ '\n') →
      ∀ c ∈ natDigitsAux fuel m acc, c ≠ '\n' := by
  induction fuel with
  | zero => intro m acc hacc c hc; exact hacc c hc
  | succ f ih =>
    intro m acc hacc c hc
    simp only [natDigitsAux] at hc
    by_cases hm : m < 10
    · rw [if_pos hm] at hc
      rcases List.mem_cons.mp hc with h | h
      · rw [h]; exact digitChar_ne_nl m
      · exact hacc c h
    · rw [if_neg hm] at hc
      refine ih (m / 10) (digitChar (m % 10) :: acc) ?_ c hc
      intro x hx
      rcases List.mem_cons.mp hx with h | h
      · rw [h]; exact digitChar_ne_nl (m % 10)
      · exact hacc x h

theorem noNL_natRepr (m : Nat) : '\n' ∉ (natRepr m).data := by
  intro h
  exact noNL_natDigitsAux (m + 1) m [] (by intro c hc; cases hc) '\n' h rfl

theorem noNL_pad2 (m : Nat) : '\n' ∉ (pad2 m).data := by
  unfold pad2
  by_cases hm : m < 10
  · rw [if_pos hm]
    exact noNL_append (by decide) (noNL_natRepr m)
  · rw [if_neg hm]
    exact noNL_natRepr m

theorem noNL_captionTemplates (brand product : String)
    (hb : '\n' ∉ brand.data) (hp : '\n' ∉ product.data) :
    ∀ s ∈ captionTemplates brand product, '\n' ∉ s.data := by
  intro s hs
  simp only [captionTemplates, List.mem_cons, List.not_mem_nil, or_false] at hs
  rcases hs with h | h | h | h | h <;> subst h
  · exact noNL_append (noNL_append (noNL_append hb (by decide)) hp) (by decide)
  · exact noNL_append (noNL_append (noNL_append (noNL_append (by decide) hp)
      (by decide)) hb) (by decide)
  · exact noNL_append (noNL_append (noNL_append (noNL_append (by decide) hb)
      (by decide)) hp) (by decide)
  · exact noNL_append (noNL_append (noNL_append (noNL_append (by decide) hp)
      (by decide)) hb) (by decide)
  · exact noNL_append (noNL_append (noNL_append (noNL_append (by decide) hp)
      (by decide)) hb) (by decide)

theorem noNL_generate_caption (brand product : String) (c : Nat)
    (hb : '\n' ∉ brand.data) (hp : '\n' ∉ product.data) :
    '\n' ∉ (generate_caption brand product c).data :=
  noNL_captionTemplates brand product hb hp _ (List.get_mem _ _ _)

theorem noNL_compositorCaptionLines (brand product : String)
    (caprand : Nat → Nat) (n : Nat)
    (hb : '\n' ∉ brand.data) (hp : '\n' ∉ product.data) :
    ∀ s ∈ compositorCaptionLines brand product caprand n, '\n' ∉ s.data := by
  intro s hs
  simp only [compositorCaptionLines, List.mem_map, List.mem_range] at hs
  obtain ⟨i, _, rfl⟩ := hs
  exact noNL_append (noNL_append (noNL_append (by decide) (noNL_pad2 (i + 1)))
    (by decide)) (noNL_generate_caption brand product (caprand i) hb hp)

theorem compositorCaptionLines_ne_nil (brand product : String)
    (caprand : Nat → Nat) (n : Nat) (hn : 1 ≤ n) :
    compositorCaptionLines brand product caprand n ≠ [] := by
  intro h
  have hl := compositorCaptionLines_length brand product caprand n
  rw [h] at hl
  simp only [List.length_nil] at hl
  omega

theorem getD_map_range {α : Type} (f : Nat → α) (n i : Nat) (h : i < n)
    (d : α) : ((List.range n).map f).getD i d = f i := by
  have h1 : i < ((List.range n).map f).length := by
    simp only [List.length_map, List.length_range]
    exact h
  rw [List.getD_eq_getElem _ _ h1, List.getElem_map]
  simp

/-- Reduction of `generate_variations_improved` on valid inputs: both input
files exist and decode, so the run succeeds with the closed-form write log
and the resolved-path return value. -/
theorem gvi_ok (fs : List (String × FileData))
    (cwd logo_path product_path out_dir : String) (n size : Nat)
    (brand_name product_name : String) (caprand : Nat → Nat)
    (dl dp : FileData)
    (hl : fsLookup fs logo_path = some dl) (hld : decodable dl = true)
    (hp : fsLookup fs product_path = some dp) (hpd : decodable dp = true) :
    generate_variations_improved fs cwd logo_path product_path out_dir n size
        brand_name product_name caprand =
      Except.ok
        { fs := writeAll fs (compositorImageWrites out_dir n ++
            [captionsFileWrite out_dir brand_name product_name caprand n]),
          writes := compositorImageWrites out_dir n ++
            [captionsFileWrite out_dir brand_name product_name caprand n],
          ret := PyObj.path (resolvePath cwd out_dir) } := by
  unfold generate_variations_improved
  rw [hl, hp]
  show (if !decodable dl then _ else _) = _
  rw [hld]
  show (if !decodable dp then _ else _) = _
  rw [hpd]
  show Except.ok _ = _
  rw [genLoop_writes_eq, genLoop_captions_eq]
  rfl

/-- C1: on an existing, decodable logo/product pair, any `n ≥ 1`, and any
output directory, the compositor writes exactly `n` creatives — two
encodings per creative sharing the stem `creative_{i+1:02d}` — plus a
`captions.txt` whose content parses back into exactly `n` lines, the `i`-th
line being `creative_{i+1:02d}.jpg`, one tab, then a template caption.
(The brand and product names must be newline-free for the line count; they
are fixed benign strings in the app.) -/
theorem C1_creatives_and_caption_file (fs : List (String × FileData))
    (cwd logo_path product_path out_dir : String) (n size : Nat)
    (brand_name product_name : String) (caprand : Nat → Nat)
    (dl dp : FileData)
    (hl : fsLookup fs logo_path = some dl) (hld : decodable dl = true)
    (hp : fsLookup fs product_path = some dp) (hpd : decodable dp = true)
    (hn : 1 ≤ n)
    (hb : '\n' ∉ brand_name.data) (hpr : '\n' ∉ product_name.data) :
    generate_variations_improved fs cwd logo_path product_path out_dir n size
        brand_name product_name caprand =
      Except.ok
        { fs := writeAll fs (compositorImageWrites out_dir n ++
            [captionsFileWrite out_dir brand_name product_name caprand n]),
          writes := compositorImageWrites out_dir n ++
            [captionsFileWrite out_dir brand_name product_name caprand n],
          ret := PyObj.path (resolvePath cwd out_dir) } ∧
    fileLines (pyJoin "\n"
        (compositorCaptionLines brand_name product_name caprand n)) =
      compositorCaptionLines brand_name product_name caprand n ∧
    (compositorCaptionLines brand_name product_name caprand n).length = n ∧
    (∀ i, i < n →
      (compositorCaptionLines brand_name product_name caprand n).getD i "" =
        "creative_" ++ pad2 (i + 1) ++ ".jpg\t" ++
          generate_caption brand_name product_name (caprand i)) := by
  refine ⟨gvi_ok fs cwd logo_path product_path out_dir n size brand_name
    product_name caprand dl dp hl hld hp hpd, ?_, ?_, ?_⟩
  · exact fileLines_pyJoin _
      (compositorCaptionLines_ne_nil brand_name product_name caprand n hn)
      (noNL_compositorCaptionLines brand_name product_name caprand n hb hpr)
  · exact compositorCaptionLines_length brand_name product_name caprand n
  · intro i hi
    unfold compositorCaptionLines
    exact getD_map_range _ n i hi ""

theorem C1_creatives_and_caption_file_witness :
    fsLookup demoFs "logo.png" = some (FileData.image 100) ∧
    fsLookup demoFs "prod.png" = some (FileData.image 101) ∧
    1 ≤ 2 ∧
    generate_variations_improved demoFs "/app" "logo.png" "prod.png" "out" 2
        1200 "Acme" "Boots" (fun _ => 0) =
      Except.ok
        { fs := writeAll demoFs (compositorImageWrites "out" 2 ++
            [captionsFileWrite "out" "Acme" "Boots" (fun _ => 0) 2]),
          writes := compositorImageWrites "out" 2 ++
            [captionsFileWrite "out" "Acme" "Boots" (fun _ => 0) 2],
          ret := PyObj.path (resolvePath "/app" "out") } ∧
    fileLines (pyJoin "\n" (compositorCaptionLines "Acme" "Boots" (fun _ => 0) 2)) =
      compositorCaptionLines "Acme" "Boots" (fun _ => 0) 2 ∧
    (compositorCaptionLines "Acme" "Boots" (fun _ => 0) 2).length = 2 := by
  have h := C1_creatives_and_caption_file demoFs "/app" "logo.png" "prod.png"
    "out" 2 1200 "Acme" "Boots" (fun _ => 0) (FileData.image 100)
    (FileData.image 101) (by decide) (by decide) (by decide) (by decide)
    (by decide) (by decide) (by decide)
  exact ⟨by decide, by decide, by decide, h.1, h.2.1, h.2.2.1⟩

/-- C2 counterexample: on a concrete valid run, `generate_variations_improved`
returns `Path(out_dir).resolve()` — a single resolved directory path — not
the list of creative filenames it produced (neither bare names nor full
paths, with or without both encodings). -/
theorem C2_counterexample_returns_path_not_list :
    runRet (generate_variations_improved demoFs "/app" "logo.png" "prod.png"
        "out" 1 1200 "Acme" "Boots" (fun _ => 0)) =
      some (PyObj.path "/app/out") ∧
    some (PyObj.path "/app/out") ≠
      some (PyObj.strList ["creative_01.png", "creative_01.jpg"]) ∧
    some (PyObj.path "/app/out") ≠ some (PyObj.strList ["creative_01.jpg"]) ∧
    some (PyObj.path "/app/out") ≠
      some (PyObj.strList ["out/creative_01.png", "out/creative_01.jpg"]) := by
  refine ⟨by decide, by decide, by decide, by decide⟩

/-- C2 as amended: the compositor returns the resolved output directory path
(one `Path`, not a list of filenames), and does write the sibling caption
mapping file `captions.txt` into that same output directory (it is the final
write of the run). -/
theorem C2_amended_returns_resolved_dir (fs : List (String × FileData))
    (cwd logo_path product_path out_dir : String) (n size : Nat)
    (brand_name product_name : String) (caprand : Nat → Nat)
    (dl dp : FileData)
    (hl : fsLookup fs logo_path = some dl) (hld : decodable dl = true)
    (hp : fsLookup fs product_path = some dp) (hpd : decodable dp = true) :
    ∃ r : RunResult,
      generate_variations_improved fs cwd logo_path product_path out_dir n
          size brand_name product_name caprand = Except.ok r ∧
      r.ret = PyObj.path (resolvePath cwd out_dir) ∧
      r.writes.getLast? =
        some (captionsFileWrite out_dir brand_name product_name caprand n) := by
  refine ⟨_, gvi_ok fs cwd logo_path product_path out_dir n size brand_name
    product_name caprand dl dp hl hld hp hpd, rfl, ?_⟩
  exact List.getLast?_concat _

theorem C2_amended_returns_resolved_dir_witness :
    fsLookup demoFs "logo.png" = some (FileData.image 100) ∧
    decodable (FileData.image 100) = true ∧
    (∃ r : RunResult,
      generate_variations_improved demoFs "/app" "logo.png" "prod.png" "out" 1
          1200 "Acme" "Boots" (fun _ => 0) = Except.ok r ∧
      r.ret = PyObj.path (resolvePath "/app" "out") ∧
      r.writes.getLast? =
        some (captionsFileWrite "out" "Acme" "Boots" (fun _ => 0) 1)) :=
  ⟨by decide, by decide,
   C2_amended_returns_resolved_dir demoFs "/app" "logo.png" "prod.png" "out" 1
     1200 "Acme" "Boots" (fun _ => 0) (FileData.image 100) (FileData.image 101)
     (by decide) (by decide) (by decide) (by decide)⟩

/-- C10: the backward-compatibility entry point `generate_variations` is the
improved generator — it forwards every argument unchanged, so on every
argument tuple the two public entry points return the same value and perform
the same file writes. -/
theorem C10_generate_variations_is_alias (fs : List (String × FileData))
    (cwd logo_path product_path out_dir : String) (n size : Nat)
    (brand_name product_name : String) (caprand : Nat → Nat) :
    generate_variations fs cwd logo_path product_path out_dir n size
        brand_name product_name caprand =
      generate_variations_improved fs cwd logo_path product_path out_dir n
        size brand_name product_name caprand := rfl

theorem takeWhile_append_all {p : Char → Bool} (a b : List Char)
    (ha : ∀ x ∈ a, p x = true) : (a ++ b).takeWhile p = a ++ b.takeWhile p := by
  induction a with
  | nil => simp
  | cons x xs ih =>
    have hx : p x = true := ha x (by simp)
    have hrest : ∀ y ∈ xs, p y = true := fun y hy => ha y (by simp [hy])
    simp only [List.cons_append, List.takeWhile_cons, hx, if_true, ih hrest]

theorem not_mem_of_contains_eq_false {c : Char} {l : List Char}
    (h : l.contains c = false) : c ∉ l := by
  intro hm
  rw [show l.contains c = true by simp [List.contains, List.elem_eq_mem, hm]] at h
  exact Bool.noConfusion h

theorem bareName_of_child (dir nm : String)
    (hslash : nm.data.contains '/' = false) :
    bareName (dir ++ "/" ++ nm) = nm := by
  unfold bareName afterLastSlash
  have hdata : (dir ++ "/" ++ nm).data = (dir.data ++ ['/']) ++ nm.data := by
    rw [String.data_append, String.data_append]
  rw [hdata, List.reverse_append, List.reverse_append]
  have hall : ∀ x ∈ nm.data.reverse, (fun c => !(c == '/')) x = true := by
    intro x hx
    have hxm : x ∈ nm.data := List.mem_reverse.mp hx
    have hne : ¬x = '/' := by
      intro he
      exact not_mem_of_contains_eq_false hslash (he ▸ hxm)
    simp [hne]
  rw [show ['/'].reverse ++ dir.data.reverse = '/' :: dir.data.reverse by simp,
    takeWhile_append_all _ _ hall]
  simp [List.takeWhile_cons]

theorem isImmediateChildOf_of_child (dir nm : String)
    (hne : nm.data.isEmpty = false)
    (hslash : nm.data.contains '/' = false) :
    isImmediateChildOf dir (dir ++ "/" ++ nm) = true := by
  unfold isImmediateChildOf
  have hdata : (dir ++ "/" ++ nm).data = (dir.data ++ ['/']) ++ nm.data := by
    rw [String.data_append, String.data_append]
  dsimp only
  rw [hdata, List.take_left, List.drop_left]
  simp [hne, not_mem_of_contains_eq_false hslash]

/-- C9: `create_zip` archives exactly the immediate entries of the source
directory, non-recursively, each stored under its bare filename with the
directory structure flattened, and with byte-identical content.  In
particular, when the source directory holds exactly the files of `fs` (all
immediate children), the archive has exactly `fs.length` entries, one per
file, with matching bare name and identical bytes; and a path of the form
`dir ++ "/" ++ name` (nonempty slash-free `name`) is an immediate child
archived under exactly `name`. -/
theorem C9_create_zip_flat_archive (dir : String) (fs : List FsFile) :
    (create_zip dir fs).length = (iterdir dir fs).length ∧
    (∀ z ∈ create_zip dir fs, ∃ f ∈ fs,
      isImmediateChildOf dir f.path = true ∧ z = (bareName f.path, f.bytes)) ∧
    ((∀ f ∈ fs, isImmediateChildOf dir f.path = true) →
      (create_zip dir fs).length = fs.length ∧
      ∀ f ∈ fs, (bareName f.path, f.bytes) ∈ create_zip dir fs) ∧
    (∀ nm : String, nm.data.isEmpty = false → nm.data.contains '/' = false →
      isImmediateChildOf dir (dir ++ "/" ++ nm) = true ∧
      bareName (dir ++ "/" ++ nm) = nm) := by
  refine ⟨by simp [create_zip], ?_, ?_, ?_⟩
  · intro z hz
    simp only [create_zip, iterdir, List.mem_map, List.mem_filter] at hz
    obtain ⟨f, ⟨hmem, himm⟩, rfl⟩ := hz
    exact ⟨f, hmem, himm, rfl⟩
  · intro hall
    have hfe : iterdir dir fs = fs := List.filter_eq_self.mpr hall
    constructor
    · simp [create_zip, hfe]
    · intro f hf
      simp only [create_zip, hfe, List.mem_map]
      exact ⟨f, hf, rfl⟩
  · intro nm hne hslash
    exact ⟨isImmediateChildOf_of_child dir nm hne hslash,
      bareName_of_child dir nm hslash⟩

theorem C9_create_zip_flat_archive_witness :
    (∀ f ∈ [FsFile.mk "run/a.png" [1, 2], FsFile.mk "run/captions.txt" [3]],
      isImmediateChildOf "run" f.path = true) ∧
    (create_zip "run"
        [FsFile.mk "run/a.png" [1, 2], FsFile.mk "run/captions.txt" [3]]).length =
      ([FsFile.mk "run/a.png" [1, 2], FsFile.mk "run/captions.txt" [3]] :
        List FsFile).length ∧
    ("a.png", [1, 2]) ∈ create_zip "run"
      [FsFile.mk "run/a.png" [1, 2], FsFile.mk "run/captions.txt" [3]] := by
  have h := C9_create_zip_flat_archive "run"
    [FsFile.mk "run/a.png" [1, 2], FsFile.mk "run/captions.txt" [3]]
  refine ⟨by decide, (h.2.2.1 (by decide)).1, ?_⟩
  have hm := (h.2.2.1 (by decide)).2 (FsFile.mk "run/a.png" [1, 2]) (by decide)
  have hb : bareName "run/a.png" = "a.png" := by decide
  rw [hb] at hm
  exact hm

/-- C4 counterexample: for a run with exactly 1 creative, an external caption
source supplying 4 captions produces a final caption file with 4 entries —
more than the creative count — because the merge pairs captions positionally
with *all* sorted image files (both encodings and the uploaded logo/product
images), truncating to the shorter list and never padding; entry 1 attaches
the second caption to the PNG encoding of creative 1, not to a creative by
position. -/
theorem C4_counterexample_merge_overruns :
    (compositorCaptionLines "B" "P" (fun _ => 0) 1).length = 1 ∧
    appImgFiles c4RunDirFiles =
      ["creative_01.jpg", "creative_01.png", "logo_l.png", "product_p.png"] ∧
    (appFinalCaptionLines (compositorCaptionLines "B" "P" (fun _ => 0) 1)
        c4RunDirFiles (some ["a", "b", "c", "d"])).length = 4 ∧
    ¬((appFinalCaptionLines (compositorCaptionLines "B" "P" (fun _ => 0) 1)
        c4RunDirFiles (some ["a", "b", "c", "d"])).length ≤
      (compositorCaptionLines "B" "P" (fun _ => 0) 1).length) ∧
    (appFinalCaptionLines (compositorCaptionLines "B" "P" (fun _ => 0) 1)
        c4RunDirFiles (some ["a", "b", "c", "d"])).getD 1 "" =
      "creative_01.png\tb" := by
  refine ⟨by decide, by decide, by decide, by decide, by decide⟩

theorem getD_zipWith_tab (as bs : List String) (i : Nat)
    (ha : i < as.length) (hb : i < bs.length) :
    (List.zipWith (fun img c => img ++ "\t" ++ c) as bs).getD i "" =
      as.getD i "" ++ "\t" ++ bs.getD i "" := by
  induction as generalizing bs i with
  | nil => simp at ha
  | cons a as ih =>
    cases bs with
    | nil => simp at hb
    | cons b bs =>
      cases i with
      | zero => rfl
      | succ j =>
        simp only [List.zipWith_cons_cons, List.getD_cons_succ]
        exact ih bs j (by simpa using ha) (by simpa using hb)

theorem getD_take {a : Type} (l : List a) (n i : Nat) (h : i < n) (d : a) :
    (l.take n).getD i d = l.getD i d := by
  induction l generalizing n i with
  | nil => simp
  | cons x xs ih =>
    cases n with
    | zero => omega
    | succ m =>
      cases i with
      | zero => rfl
      | succ j =>
        simp only [List.take_succ_cons, List.getD_cons_succ]
        exact ih m j (by omega)

/-- C4 as amended: when external captions are present, the final caption file
has `min(#image files, #captions)` entries — the `i`-th pairing the `i`-th
alphabetically sorted image file (both encodings and uploads included) with
the `i`-th caption — truncated to the shorter list with no padding; the
count equals the caption count whenever there are at least as many image
files (as in the app's wiring, where the adapter supplies exactly `n`
captions and the run directory holds `2n + 2` image files); with no external
captions the compositor's `n` lines stand. -/
theorem C4_amended_merge_positional (files : List String)
    (cl : List String) :
    (mergeGeminiCaptions files cl).length =
      min (appImgFiles files).length cl.length ∧
    (∀ i, i < (mergeGeminiCaptions files cl).length →
      (mergeGeminiCaptions files cl).getD i "" =
        (appImgFiles files).getD i "" ++ "\t" ++ cl.getD i "") ∧
    (cl.length ≤ (appImgFiles files).length →
      (mergeGeminiCaptions files cl).length = cl.length) ∧
    (∀ comp : List String, appFinalCaptionLines comp files none = comp) := by
  refine ⟨?_, ?_, ?_, fun comp => rfl⟩
  · simp only [mergeGeminiCaptions, List.length_zipWith, List.length_take]
    omega
  · intro i hi
    simp only [mergeGeminiCaptions, List.length_zipWith, List.length_take] at hi
    have h1 : i < (appImgFiles files).length := by omega
    have h2 : i < cl.length := by omega
    have h3 : i < ((appImgFiles files).take cl.length).length := by
      simp only [List.length_take]
      omega
    show (List.zipWith (fun img c => img ++ "\t" ++ c)
      ((appImgFiles files).take cl.length) cl).getD i "" = _
    rw [getD_zipWith_tab _ _ _ h3 h2, getD_take _ _ _ h2]
  · intro hle
    simp only [mergeGeminiCaptions, List.length_zipWith, List.length_take]
    omega

theorem C4_amended_merge_positional_witness :
    (mergeGeminiCaptions c4RunDirFiles ["a", "b", "c", "d"]).length =
      min (appImgFiles c4RunDirFiles).length
        (["a", "b", "c", "d"] : List String).length ∧
    (mergeGeminiCaptions c4RunDirFiles ["a", "b", "c", "d"]).getD 1 "" =
      (appImgFiles c4RunDirFiles).getD 1 "" ++ "\t" ++
        (["a", "b", "c", "d"] : List String).getD 1 "" ∧
    (mergeGeminiCaptions c4RunDirFiles ["a", "b", "c", "d"]).length =
      (["a", "b", "c", "d"] : List String).length ∧
    appFinalCaptionLines ["x"] c4RunDirFiles none = ["x"] := by
  have h := C4_amended_merge_positional c4RunDirFiles ["a", "b", "c", "d"]
  exact ⟨h.1, h.2.1 1 (by decide), h.2.2.1 (by decide), h.2.2.2 ["x"]⟩

theorem getD_indep {a : Type} (l : List a) (i : Nat) (h : i < l.length)
    (d d' : a) : l.getD i d = l.getD i d' := by
  induction l generalizing i with
  | nil => simp at h
  | cons x xs ih =>
    cases i with
    | zero => rfl
    | succ j =>
      simp only [List.getD_cons_succ]
      exact ih j (by simpa using h)

theorem getD_mem {a : Type} (l : List a) (i : Nat) (h : i < l.length)
    (d : a) : l.getD i d ∈ l := by
  induction l generalizing i with
  | nil => simp at h
  | cons x xs ih =>
    cases i with
    | zero => simp
    | succ j =>
      simp only [List.getD_cons_succ]
      exact List.mem_cons_of_mem x (ih j (by simpa using h))

theorem getD_map_of_lt {a b : Type} (f : a → b) (l : List a) (j : Nat)
    (h : j < l.length) (d : b) (da : a) :
    (l.map f).getD j d = f (l.getD j da) := by
  induction l generalizing j with
  | nil => simp at h
  | cons x xs ih =>
    cases j with
    | zero => rfl
    | succ i =>
      simp only [List.map_cons, List.getD_cons_succ]
      exact ih i (by simpa using h)

theorem getD_drop_add {a : Type} (l : List a) (n i : Nat) (d : a) :
    (l.drop n).getD i d = l.getD (n + i) d := by
  induction l generalizing n with
  | nil => simp
  | cons x xs ih =>
    cases n with
    | zero => simp
    | succ m =>
      simp only [List.drop_succ_cons, Nat.succ_add, List.getD_cons_succ]
      exact ih m

theorem firstIdxAux_sound (p : Nat → Bool) :
    ∀ (m i j : Nat), firstIdxAux p i m = some j →
      p j = true ∧ i ≤ j ∧ ∀ k, i ≤ k → k < j → p k = false := by
  intro m
  induction m with
  | zero => intro i j h; exact absurd h (by simp [firstIdxAux])
  | succ m ih =>
    intro i j h
    simp only [firstIdxAux] at h
    by_cases hp : p i = true
    · rw [if_pos hp] at h
      obtain rfl : i = j := Option.some_injective _ h
      exact ⟨hp, Nat.le_refl i, fun k hk1 hk2 => absurd (Nat.lt_of_le_of_lt hk1 hk2)
        (Nat.lt_irrefl i)⟩
    · rw [if_neg hp] at h
      obtain ⟨hj, hij, hmin⟩ := ih (i + 1) j h
      refine ⟨hj, Nat.le_of_succ_le hij, fun k hk1 hk2 => ?_⟩
      by_cases hki : k = i
      · subst hki
        exact Bool.eq_false_iff.mpr hp
      · exact hmin k (by omega) hk2

theorem lastIdxAux_sound (p : Nat → Bool) :
    ∀ (m j : Nat), lastIdxAux p m = some j →
      p j = true ∧ j < m ∧ ∀ k, j < k → k < m → p k = false := by
  intro m
  induction m with
  | zero => intro j h; exact absurd h (by simp [lastIdxAux])
  | succ m ih =>
    intro j h
    simp only [lastIdxAux] at h
    by_cases hp : p m = true
    · rw [if_pos hp] at h
      obtain rfl : m = j := Option.some_injective _ h
      exact ⟨hp, Nat.lt_succ_self m, fun k hk1 hk2 => by omega⟩
    · rw [if_neg hp] at h
      obtain ⟨hj, hjm, hmax⟩ := ih j h
      refine ⟨hj, Nat.lt_succ_of_lt hjm, fun k hk1 hk2 => ?_⟩
      by_cases hkm : k = m
      · subst hkm
        exact Bool.eq_false_iff.mpr hp
      · exact hmax k hk1 (by omega)

theorem rowNonzero_exists_idx (row : List Nat) (h : rowNonzero row = true) :
    ∃ j, j < row.length ∧ row.getD j 0 ≠ 0 := by
  induction row with
  | nil => simp [rowNonzero] at h
  | cons v vs ih =>
    by_cases hv : v = 0
    · subst hv
      have h' : rowNonzero vs = true := by
        simp only [rowNonzero, List.any_eq_true] at h ⊢
        obtain ⟨x, hx, hxv⟩ := h
        rcases List.mem_cons.mp hx with rfl | hx'
        · simp at hxv
        · exact ⟨x, hx', by simpa using hxv⟩
      obtain ⟨j, hj, hv⟩ := ih h'
      exact ⟨j + 1, by simpa using hj, by simpa using hv⟩
    · exact ⟨0, by simp, hv⟩

theorem rowNonzero_of_idx (row : List Nat) (j : Nat) (h : j < row.length)
    (hv : row.getD j 0 ≠ 0) : rowNonzero row = true := by
  have hmem : row.getD j 0 ∈ row := getD_mem row j h 0
  simp only [rowNonzero, List.any_eq_true]
  exact ⟨row.getD j 0, hmem, by simpa using hv⟩

theorem colNonzero_of_idx (g : List (List Nat)) (i j : Nat)
    (hi : i < g.length) (hv : (g.getD i []).getD j 0 ≠ 0) :
    colNonzero g j = true := by
  simp only [colNonzero, List.any_eq_true]
  exact ⟨g.getD i [], getD_mem g i hi [], by simpa using hv⟩

theorem colNonzero_exists_idx (g : List (List Nat)) (j : Nat)
    (h : colNonzero g j = true) :
    ∃ i, i < g.length ∧ (g.getD i []).getD j 0 ≠ 0 := by
  induction g with
  | nil => simp [colNonzero] at h
  | cons row rows ih =>
    by_cases hr : row.getD j 0 = 0
    · have h' : colNonzero rows j = true := by
        simp only [colNonzero, List.any_eq_true] at h ⊢
        obtain ⟨x, hx, hxv⟩ := h
        rcases List.mem_cons.mp hx with rfl | hx'
        · exact absurd hr (by simpa using hxv)
        · exact ⟨x, hx', by simpa using hxv⟩
      obtain ⟨i, hi, hv⟩ := ih h'
      exact ⟨i + 1, by simpa using hi, by simpa using hv⟩
    · exact ⟨0, by simp, hr⟩

theorem getD_of_length_le {a : Type} (l : List a) (i : Nat)
    (h : l.length ≤ i) (d : a) : l.getD i d = d := by
  induction l generalizing i with
  | nil => simp
  | cons x xs ih =>
    cases i with
    | zero => simp at h
    | succ j =>
      simp only [List.getD_cons_succ]
      exact ih j (by simpa using h)

/-- `getbbox` returns a tight box: the first and last row and the first and
last column of the cropped mask each hold a non-zero value. -/
theorem gridBBox_tight (g : List (List Nat)) (l u r d : Nat)
    (hrect : ∀ row ∈ g, row.length = (g.headD []).length)
    (hbb : gridBBox g = some (l, u, r, d)) :
    rowNonzero ((cropGridN g l u r d).getD 0 []) = true ∧
    rowNonzero ((cropGridN g l u r d).getD (d - u - 1) []) = true ∧
    colNonzero (cropGridN g l u r d) 0 = true ∧
    colNonzero (cropGridN g l u r d) (r - l - 1) = true := by
  unfold gridBBox at hbb
  cases hfr : firstIdx (fun i => rowNonzero (g.getD i [])) g.length with
  | none => rw [hfr] at hbb; simp at hbb
  | some u2 =>
  cases hlr : lastIdxAux (fun i => rowNonzero (g.getD i [])) g.length with
  | none => rw [hfr, hlr] at hbb; simp at hbb
  | some dd =>
  cases hfc : firstIdx (fun j => colNonzero g j) (g.headD []).length with
  | none => rw [hfr, hlr, hfc] at hbb; simp at hbb
  | some l2 =>
  cases hlc : lastIdxAux (fun j => colNonzero g j) (g.headD []).length with
  | none => rw [hfr, hlr, hfc, hlc] at hbb; simp at hbb
  | some rr =>
  rw [hfr, hlr, hfc, hlc] at hbb
  simp only [Option.some.injEq, Prod.mk.injEq] at hbb
  obtain ⟨h1, h2, h3, h4⟩ := hbb
  rw [h2] at hfr
  rw [h1] at hfc
  rw [← h3, ← h4]
  unfold firstIdx at hfr hfc
  obtain ⟨hpu, -, hminRow⟩ := firstIdxAux_sound _ g.length 0 u hfr
  obtain ⟨hpdd, hddH, hmaxRow⟩ := lastIdxAux_sound _ g.length dd hlr
  obtain ⟨hpl, -, hminCol⟩ := firstIdxAux_sound _ (g.headD []).length 0 l hfc
  obtain ⟨hprr, hrrW, hmaxCol⟩ := lastIdxAux_sound _ (g.headD []).length rr hlc
  have huH : u < g.length := by
    by_contra hc
    push_neg at hc
    rw [getD_of_length_le g u hc []] at hpu
    exact Bool.noConfusion hpu
  have hud : u ≤ dd := by
    by_contra hc
    push_neg at hc
    have := hmaxRow u hc huH
    rw [hpu] at this
    exact Bool.noConfusion this
  have hlrr : l ≤ rr := by
    by_cases hlW : l < (g.headD []).length
    · by_contra hc
      push_neg at hc
      have := hmaxCol l hc hlW
      rw [hpl] at this
      exact Bool.noConfusion this
    · exfalso
      push_neg at hlW
      obtain ⟨i0, hi0, hv0⟩ := colNonzero_exists_idx g l hpl
      have hlen0 : (g.getD i0 []).length ≤ l := by
        rw [hrect (g.getD i0 []) (getD_mem g i0 hi0 [])]
        exact hlW
      rw [getD_of_length_le _ _ hlen0 0] at hv0
      exact hv0 rfl
  have hcroplen : (cropGridN g l u (rr + 1) (dd + 1)).length =
      min (dd + 1 - u) (g.length - u) := by
    simp [cropGridN, List.length_take, List.length_drop]
  -- top edge
  obtain ⟨j, hjlen, hjv⟩ := rowNonzero_exists_idx (g.getD u []) hpu
  have hjW : j < (g.headD []).length := by
    rw [hrect (g.getD u []) (getD_mem g u huH [])] at hjlen
    exact hjlen
  have hcolj : colNonzero g j = true := colNonzero_of_idx g u j huH hjv
  have hlj : l ≤ j := by
    by_contra hc
    push_neg at hc
    have := hminCol j (Nat.zero_le j) hc
    rw [hcolj] at this
    exact Bool.noConfusion this
  have hjrr : j ≤ rr := by
    by_contra hc
    push_neg at hc
    have := hmaxCol j hc hjW
    rw [hcolj] at this
    exact Bool.noConfusion this
  have htop : (cropGridN g l u (rr + 1) (dd + 1)).getD 0 [] =
      ((g.getD u []).drop l).take (rr + 1 - l) := by
    unfold cropGridN
    rw [getD_map_of_lt _ _ 0 (by simp [List.length_take, List.length_drop]; omega) [] []]
    rw [getD_take _ _ _ (by omega), getD_drop_add]
    simp
  have hbot : (cropGridN g l u (rr + 1) (dd + 1)).getD (dd + 1 - u - 1) [] =
      ((g.getD dd []).drop l).take (rr + 1 - l) := by
    unfold cropGridN
    rw [getD_map_of_lt _ _ (dd + 1 - u - 1)
      (by simp [List.length_take, List.length_drop]; omega) [] []]
    rw [getD_take _ _ _ (by omega), getD_drop_add,
      show u + (dd + 1 - u - 1) = dd by omega]
  refine ⟨?_, ?_, ?_, ?_⟩
  · rw [htop]
    apply rowNonzero_of_idx _ (j - l)
    · simp only [List.length_take, List.length_drop]
      omega
    · rw [getD_take _ _ _ (by omega), getD_drop_add,
        show l + (j - l) = j by omega]
      exact hjv
  · rw [hbot]
    obtain ⟨j2, hj2len, hj2v⟩ := rowNonzero_exists_idx (g.getD dd []) hpdd
    have hddH2 : dd < g.length := hddH
    have hj2W : j2 < (g.headD []).length := by
      rw [hrect (g.getD dd []) (getD_mem g dd hddH2 [])] at hj2len
      exact hj2len
    have hcolj2 : colNonzero g j2 = true := colNonzero_of_idx g dd j2 hddH2 hj2v
    have hlj2 : l ≤ j2 := by
      by_contra hc
      push_neg at hc
      have := hminCol j2 (Nat.zero_le j2) hc
      rw [hcolj2] at this
      exact Bool.noConfusion this
    have hj2rr : j2 ≤ rr := by
      by_contra hc
      push_neg at hc
      have := hmaxCol j2 hc hj2W
      rw [hcolj2] at this
      exact Bool.noConfusion this
    apply rowNonzero_of_idx _ (j2 - l)
    · simp only [List.length_take, List.length_drop]
      omega
    · rw [getD_take _ _ _ (by omega), getD_drop_add,
        show l + (j2 - l) = j2 by omega]
      exact hj2v
  · obtain ⟨i2, hi2H, hi2v⟩ := colNonzero_exists_idx g l hpl
    have hri2 : rowNonzero (g.getD i2 []) = true := by
      apply rowNonzero_of_idx _ l
      · by_contra hc
        push_neg at hc
        rw [getD_of_length_le _ _ hc 0] at hi2v
        exact hi2v rfl
      · exact hi2v
    have hui2 : u ≤ i2 := by
      by_contra hc
      push_neg at hc
      have := hminRow i2 (Nat.zero_le i2) hc
      rw [hri2] at this
      exact Bool.noConfusion this
    have hi2dd : i2 ≤ dd := by
      by_contra hc
      push_neg at hc
      have := hmaxRow i2 hc hi2H
      rw [hri2] at this
      exact Bool.noConfusion this
    apply colNonzero_of_idx _ (i2 - u) 0
    · rw [hcroplen]
      omega
    · have hrowi2 : (cropGridN g l u (rr + 1) (dd + 1)).getD (i2 - u) [] =
          ((g.getD i2 []).drop l).take (rr + 1 - l) := by
        unfold cropGridN
        rw [getD_map_of_lt _ _ (i2 - u)
          (by simp [List.length_take, List.length_drop]; omega) [] []]
        rw [getD_take _ _ _ (by omega), getD_drop_add,
          show u + (i2 - u) = i2 by omega]
      rw [hrowi2, getD_take _ _ _ (by omega), getD_drop_add]
      simpa using hi2v
  · obtain ⟨i3, hi3H, hi3v⟩ := colNonzero_exists_idx g rr hprr
    have hri3 : rowNonzero (g.getD i3 []) = true := by
      apply rowNonzero_of_idx _ rr
      · by_contra hc
        push_neg at hc
        rw [getD_of_length_le _ _ hc 0] at hi3v
        exact hi3v rfl
      · exact hi3v
    have hui3 : u ≤ i3 := by
      by_contra hc
      push_neg at hc
      have := hminRow i3 (Nat.zero_le i3) hc
      rw [hri3] at this
      exact Bool.noConfusion this
    have hi3dd : i3 ≤ dd := by
      by_contra hc
      push_neg at hc
      have := hmaxRow i3 hc hi3H
      rw [hri3] at this
      exact Bool.noConfusion this
    apply colNonzero_of_idx _ (i3 - u) (rr + 1 - l - 1)
    · rw [hcroplen]
      omega
    · have hrowi3 : (cropGridN g l u (rr + 1) (dd + 1)).getD (i3 - u) [] =
          ((g.getD i3 []).drop l).take (rr + 1 - l) := by
        unfold cropGridN
        rw [getD_map_of_lt _ _ (i3 - u)
          (by simp [List.length_take, List.length_drop]; omega) [] []]
        rw [getD_take _ _ _ (by omega), getD_drop_add,
          show u + (i3 - u) = i3 by omega]
      rw [hrowi3, getD_take _ _ _ (by omega), getD_drop_add,
        show l + (rr + 1 - l - 1) = rr by omega]
      exact hi3v

theorem alphaGrid_cropImg (img : Img) (l u r d : Nat) :
    alphaGrid (cropImg img l u r d) = cropGridN (alphaGrid img) l u r d := by
  unfold alphaGrid cropImg cropGridN
  rw [← List.map_drop, ← List.map_take, List.map_map, List.map_map]
  congr 1
  funext row
  simp [List.map_take, List.map_drop]

theorem alphaGrid_rect (img : Img) (hrect : ImgRect img) :
    ∀ row ∈ alphaGrid img, row.length = ((alphaGrid img).headD []).length := by
  intro row hrow
  simp only [alphaGrid, List.mem_map] at hrow
  obtain ⟨prow, hp, rfl⟩ := hrow
  have hhead : (alphaGrid img).headD [] = (img.px.headD []).map Pix.a := by
    cases himg : img.px <;> simp [alphaGrid, himg]
  rw [hhead]
  simp only [List.length_map]
  exact hrect prow hp

/-- C7 as amended: (1) for RGBA images whose alpha bounding box exists, the
result is the crop to that box, and it is tight — the first and last row and
column of the cropped alpha mask each hold a non-transparent pixel;
(2) in *every other* case with a luminance bounding box — non-RGBA images,
but also RGBA images with no non-transparent pixel — the result is the crop
to the luminance box (pixels darker than `255 - threshold`); (3) the centred
square crop happens only when the luminance box is also absent. -/
theorem C7_amended_autocrop (img : Img) (t : Nat) (hrect : ImgRect img) :
    (∀ l u r d, img.mode = PMode.rgba →
        gridBBox (alphaGrid img) = some (l, u, r, d) →
        _autocrop_to_subject img t = cropImg img l u r d ∧
        rowNonzero ((alphaGrid (_autocrop_to_subject img t)).getD 0 []) = true ∧
        rowNonzero ((alphaGrid (_autocrop_to_subject img t)).getD
          (d - u - 1) []) = true ∧
        colNonzero (alphaGrid (_autocrop_to_subject img t)) 0 = true ∧
        colNonzero (alphaGrid (_autocrop_to_subject img t))
          (r - l - 1) = true) ∧
    ((img.mode ≠ PMode.rgba ∨ gridBBox (alphaGrid img) = none) →
      ∀ l u r d, gridBBox (bwGrid img t) = some (l, u, r, d) →
        _autocrop_to_subject img t = cropImg img l u r d) ∧
    ((img.mode ≠ PMode.rgba ∨ gridBBox (alphaGrid img) = none) →
      gridBBox (bwGrid img t) = none →
      _autocrop_to_subject img t = centerSquareCrop img) := by
  have halphaNone : ∀ (hnot : img.mode ≠ PMode.rgba ∨
      gridBBox (alphaGrid img) = none),
      _autocrop_to_subject img t =
        (match gridBBox (bwGrid img t) with
         | some (l, u, r, d) => cropImg img l u r d
         | none => centerSquareCrop img) := by
    intro hnot
    unfold _autocrop_to_subject
    rcases hnot with hm | hnone
    · rw [if_neg hm]
    · by_cases hm : img.mode = PMode.rgba
      · rw [if_pos hm, hnone]
      · rw [if_neg hm]
  refine ⟨?_, ?_, ?_⟩
  · intro l u r d hmode hbb
    have heq : _autocrop_to_subject img t = cropImg img l u r d := by
      unfold _autocrop_to_subject
      rw [if_pos hmode, hbb]
    have ht := gridBBox_tight (alphaGrid img) l u r d
      (alphaGrid_rect img hrect) hbb
    rw [heq, alphaGrid_cropImg]
    exact ⟨rfl, ht.1, ht.2.1, ht.2.2.1, ht.2.2.2⟩
  · intro hnot l u r d hbw
    rw [halphaNone hnot, hbw]
  · intro hnot hbw
    rw [halphaNone hnot, hbw]

/-- C7 counterexample: on a fully transparent 2×1 RGBA image the alpha
bounding box is absent, and the code then *falls through to the luminance
pass* — the black pixels are darker than `255 - 10`, so the luminance box is
the whole image and the function returns the uncropped 2×1 image — whereas
the claim's reading ("if no bounding box is found, return a centred square
crop of side min(w, h)") demands the 1×1 centred square crop. -/
theorem C7_counterexample_transparent_rgba :
    c7Img.mode = PMode.rgba ∧
    gridBBox (alphaGrid c7Img) = none ∧
    _autocrop_to_subject c7Img 10 = c7Img ∧
    autocropClaim c7Img 10 = centerSquareCrop c7Img ∧
    imgW (_autocrop_to_subject c7Img 10) = 2 ∧
    imgW (autocropClaim c7Img 10) = 1 ∧
    _autocrop_to_subject c7Img 10 ≠ autocropClaim c7Img 10 := by
  refine ⟨by decide, by decide, by decide, by decide, by decide, by decide,
    by decide⟩

theorem C7_amended_autocrop_witness :
    ImgRect c7OpqImg ∧
    c7OpqImg.mode = PMode.rgba ∧
    gridBBox (alphaGrid c7OpqImg) = some (1, 0, 2, 1) ∧
    _autocrop_to_subject c7OpqImg 10 = cropImg c7OpqImg 1 0 2 1 ∧
    rowNonzero ((alphaGrid (_autocrop_to_subject c7OpqImg 10)).getD 0 [])
      = true ∧
    colNonzero (alphaGrid (_autocrop_to_subject c7OpqImg 10)) 0 = true := by
  have hr : ImgRect c7OpqImg := by
    unfold ImgRect imgW
    decide
  have h := C7_amended_autocrop c7OpqImg 10 hr
  have h1 := h.1 1 0 2 1 (by decide) (by decide)
  exact ⟨hr, by decide, by decide, h1.1, h1.2.1, h1.2.2.2.1⟩
